import Mathlib

/-!
Verification development for the leiden variant-curation repository.

Python strings are modelled as `List Char` (`Str`).  Python `str.upper` /
`str.lower` are modelled by `Char.toUpper` / `Char.toLower`, which agree with
Python on ASCII text (the inputs these functions are applied to).  Functions
that raise `ValueError` / `IndexError` are modelled with `Except Err`, using
the error taxonomy of the specification.  Each `re.search`-based helper is
embedded as an explicit leftmost-match scanner that mirrors the backtracking
behaviour of its regular expression.
-/

/-- Python strings as lists of characters. -/
abbrev Str := List Char

/-- Error taxonomy (spec section 7).  `InvalidPDot` stands for the
spec's invalid-p-dot error (the spec name carries a reserved suffix here),
`IndexErr` models a Python `IndexError`. -/
inductive Err where
  | TagNotFound
  | UnrecognizedCode
  | InvalidPDot
  | UnexpectedFormat
  | IndelDetected
  | IndexErr
deriving DecidableEq, Repr

deriving instance DecidableEq for Except

/-- Python `str.upper` on ASCII text. -/
def upperStr (s : Str) : Str := s.map Char.toUpper

/-- Boolean string-prefix test (`needle` begins `hay`). -/
def isPre : Str → Str → Bool
  | [], _ => true
  | _ :: _, [] => false
  | a :: as, b :: bs => a == b && isPre as bs

/-- Python `needle in hay` substring test. -/
def pyIn (needle : Str) : Str → Bool
  | [] => isPre needle []
  | c :: t => isPre needle (c :: t) || pyIn needle t

/-- ASCII digit `[0-9]`. -/
def isAsciiDigit (c : Char) : Bool := decide (48 ≤ c.toNat) && decide (c.toNat ≤ 57)

/-- ASCII nonzero digit `[1-9]`. -/
def isNonzeroDigit (c : Char) : Bool := decide (49 ≤ c.toNat) && decide (c.toNat ≤ 57)

/-- ASCII uppercase letter `[A-Z]`. -/
def isAsciiUpper (c : Char) : Bool := decide (65 ≤ c.toNat) && decide (c.toNat ≤ 90)

/-- ASCII lowercase letter `[a-z]`. -/
def isAsciiLower (c : Char) : Bool := decide (97 ≤ c.toNat) && decide (c.toNat ≤ 122)

/-- ASCII letter `[A-Za-z]`. -/
def isAsciiAlpha (c : Char) : Bool := isAsciiUpper c || isAsciiLower c

/-- Association-list lookup modelling the Python dict lookup in `map_aa_codes`. -/
def lookupA (c : Str) : List (Str × Str) → Option Str
  | [] => none
  | (k, v) :: t => if c = k then some v else lookupA c t

/-- Body of `map_aa_codes` applied to the already-uppercased code, over a given
three-letter table (the two source files differ only in the table). -/
def map_aa_codes_table (table : List (Str × Str)) (c : Str) : Except Err Str :=
  if c = ['*'] ∨ c = [] then .ok c
  else if c ≠ ['X'] ∧ c.length = 1 then .ok c
  else
    match lookupA c table with
    | some v => .ok v
    | none => .error .UnrecognizedCode

namespace ProcessAnnotatedMutations

/-- Three-letter to one-letter amino-acid table of
`process_annotated_mutations.py::map_aa_codes` (includes the `DEL` marker). -/
def one_letter_aa_codes : List (Str × Str) :=
  [(['V','A','L'], ['V']), (['I','L','E'], ['I']), (['L','E','U'], ['L']),
   (['G','L','U'], ['E']), (['G','L','N'], ['Q']), (['A','S','P'], ['D']),
   (['A','S','N'], ['N']), (['H','I','S'], ['H']), (['T','R','P'], ['W']),
   (['P','H','E'], ['F']), (['T','Y','R'], ['Y']), (['A','R','G'], ['R']),
   (['L','Y','S'], ['K']), (['S','E','R'], ['S']), (['T','H','R'], ['T']),
   (['M','E','T'], ['M']), (['A','L','A'], ['A']), (['G','L','Y'], ['G']),
   (['P','R','O'], ['P']), (['C','Y','S'], ['C']),
   (['X'], ['*']), (['X','A','A'], ['*']), (['S','C','Y'], ['*']),
   (['D','E','L'], ['D','E','L'])]

/-- `process_annotated_mutations.py::map_aa_codes` (lines 131-159): uppercase
the code, pass `*`, the empty string and single letters other than `X`
through, look 3-letter codes (and `X`/`XAA`/`SCY`/`DEL`) up in the table, and
fail with `UnrecognizedCode` otherwise. -/
def map_aa_codes (code : Str) : Except Err Str :=
  map_aa_codes_table one_letter_aa_codes (upperStr code)

end ProcessAnnotatedMutations

namespace AnnotationProcessing

/-- Three-letter to one-letter amino-acid table of
`validation/AnnotationProcessing.py::map_aa_codes` (no `DEL` entry). -/
def one_letter_aa_codes : List (Str × Str) :=
  [(['V','A','L'], ['V']), (['I','L','E'], ['I']), (['L','E','U'], ['L']),
   (['G','L','U'], ['E']), (['G','L','N'], ['Q']), (['A','S','P'], ['D']),
   (['A','S','N'], ['N']), (['H','I','S'], ['H']), (['T','R','P'], ['W']),
   (['P','H','E'], ['F']), (['T','Y','R'], ['Y']), (['A','R','G'], ['R']),
   (['L','Y','S'], ['K']), (['S','E','R'], ['S']), (['T','H','R'], ['T']),
   (['M','E','T'], ['M']), (['A','L','A'], ['A']), (['G','L','Y'], ['G']),
   (['P','R','O'], ['P']), (['C','Y','S'], ['C']),
   (['X'], ['*']), (['X','A','A'], ['*']), (['S','C','Y'], ['*'])]

/-- `validation/AnnotationProcessing.py::map_aa_codes` (lines 7-34). -/
def map_aa_codes (code : Str) : Except Err Str :=
  map_aa_codes_table one_letter_aa_codes (upperStr code)

end AnnotationProcessing

lemma lookupA_eq_none_of (c : Str) :
    ∀ t : List (Str × Str), (∀ kv ∈ t, c ≠ kv.1) → lookupA c t = none := by
  intro t
  induction t with
  | nil => intro _; rfl
  | cons kv rest ih =>
    intro h
    have h1 : c ≠ kv.1 := h kv (List.mem_cons_self kv rest)
    have h2 : ∀ kv' ∈ rest, c ≠ kv'.1 := fun kv' hm => h kv' (List.mem_cons_of_mem kv hm)
    cases kv with
    | mk k v =>
      simp only [lookupA, if_neg h1, ih h2]

namespace ProcessAnnotatedMutations

/-- Core of `process_annotated_mutations.py::is_concordant` (lines 53-67), with
the row-extraction steps (`get_laa_change`, `get_vep_aa_change`) factored out:
it takes the extracted LOVD pair and the extracted list of VEP pairs.  Only
the LOVD pair is mapped through `map_aa_codes`; VEP entries are compared raw.
(A VEP entry whose after-group was absent can never compare equal and is
outside the pair-level model.) -/
def is_concordant (laa_change : Str × Str) (vep_aa_change : List (Str × Str)) :
    Except Err Bool :=
  match map_aa_codes laa_change.1 with
  | .error e => .error e
  | .ok lovd_before =>
    match map_aa_codes laa_change.2 with
    | .error e => .error e
    | .ok lovd_after =>
      .ok (vep_aa_change.any fun e => decide (lovd_before = e.1) && decide (lovd_after = e.2))

end ProcessAnnotatedMutations

namespace AnnotationProcessing

/-- `validation/AnnotationProcessing.py::is_concordant_annotation`
(lines 195-215; the source name carries a reserved suffix and is shortened
here): maps both pairs through `map_aa_codes` and declares concordance when
the mapped pairs are equal or both pairs are internally synonymous. -/
def is_concordant_ann (laa_change aa_change : Str × Str) : Except Err Bool :=
  match map_aa_codes laa_change.1 with
  | .error e => .error e
  | .ok laa_change_before =>
    match map_aa_codes laa_change.2 with
    | .error e => .error e
    | .ok laa_change_after =>
      match map_aa_codes aa_change.1 with
      | .error e => .error e
      | .ok aa_change_before =>
        match map_aa_codes aa_change.2 with
        | .error e => .error e
        | .ok aa_change_after =>
          .ok (decide (laa_change_before = aa_change_before ∧ laa_change_after = aa_change_after) ||
               decide (laa_change_before = laa_change_after ∧ aa_change_before = aa_change_after))

end AnnotationProcessing

/-- C9: `map_aa_codes` maps each of the 20 three-letter amino-acid codes
(case-insensitively) to its single-letter equivalent, maps the alternate
stop-codon spellings `X`, `XAA`, `SCY` to `*`, maps `DEL` to itself, passes
`*` and single-letter inputs (other than `x`/`X`) through uppercased
unchanged, and fails with `UnrecognizedCode` for every other input. -/
theorem map_aa_codes_spec :
    (∀ p ∈ ([(['V','A','L'], ['V']), (['I','L','E'], ['I']), (['L','E','U'], ['L']),
       (['G','L','U'], ['E']), (['G','L','N'], ['Q']), (['A','S','P'], ['D']),
       (['A','S','N'], ['N']), (['H','I','S'], ['H']), (['T','R','P'], ['W']),
       (['P','H','E'], ['F']), (['T','Y','R'], ['Y']), (['A','R','G'], ['R']),
       (['L','Y','S'], ['K']), (['S','E','R'], ['S']), (['T','H','R'], ['T']),
       (['M','E','T'], ['M']), (['A','L','A'], ['A']), (['G','L','Y'], ['G']),
       (['P','R','O'], ['P']), (['C','Y','S'], ['C'])] : List (Str × Str)),
      ∀ s : Str, upperStr s = p.1 → ProcessAnnotatedMutations.map_aa_codes s = .ok p.2)
    ∧ (∀ s : Str, (upperStr s = ['X'] ∨ upperStr s = ['X','A','A'] ∨ upperStr s = ['S','C','Y']) →
        ProcessAnnotatedMutations.map_aa_codes s = .ok ['*'])
    ∧ (∀ s : Str, upperStr s = ['D','E','L'] →
        ProcessAnnotatedMutations.map_aa_codes s = .ok ['D','E','L'])
    ∧ (∀ s : Str, upperStr s = ['*'] → ProcessAnnotatedMutations.map_aa_codes s = .ok ['*'])
    ∧ (∀ s : Str, ∀ c : Char, upperStr s = [c] → c ≠ 'X' →
        ProcessAnnotatedMutations.map_aa_codes s = .ok [c])
    ∧ (∀ s : Str, 2 ≤ (upperStr s).length →
        upperStr s ∉ ([['V','A','L'], ['I','L','E'], ['L','E','U'], ['G','L','U'],
          ['G','L','N'], ['A','S','P'], ['A','S','N'], ['H','I','S'], ['T','R','P'],
          ['P','H','E'], ['T','Y','R'], ['A','R','G'], ['L','Y','S'], ['S','E','R'],
          ['T','H','R'], ['M','E','T'], ['A','L','A'], ['G','L','Y'], ['P','R','O'],
          ['C','Y','S'], ['X','A','A'], ['S','C','Y'], ['D','E','L']] : List Str) →
        ProcessAnnotatedMutations.map_aa_codes s = .error .UnrecognizedCode) := by
  refine ⟨?_, ?_, ?_, ?_, ?_, ?_⟩
  · intro p hp s hs
    fin_cases hp <;>
      · simp only [ProcessAnnotatedMutations.map_aa_codes]
        rw [hs]
        decide
  · intro s hs
    rcases hs with hs | hs | hs <;>
      · simp only [ProcessAnnotatedMutations.map_aa_codes]
        rw [hs]
        decide
  · intro s hs
    simp only [ProcessAnnotatedMutations.map_aa_codes]
    rw [hs]
    decide
  · intro s hs
    simp only [ProcessAnnotatedMutations.map_aa_codes]
    rw [hs]
    decide
  · intro s c hs hc
    simp only [ProcessAnnotatedMutations.map_aa_codes]
    rw [hs]
    by_cases hcs : c = '*'
    · subst hcs; decide
    · have h1 : ¬(([c] : Str) = ['*'] ∨ ([c] : Str) = []) := by
        rintro (h | h) <;> simp_all
      have h2 : ([c] : Str) ≠ ['X'] ∧ ([c] : Str).length = 1 := ⟨by simpa using hc, rfl⟩
      simp only [map_aa_codes_table, if_neg h1, if_pos h2]
  · intro s h1 h2
    simp only [ProcessAnnotatedMutations.map_aa_codes] at *
    generalize hu : upperStr s = u at h1 h2 ⊢
    have hne1 : ¬(u = ['*'] ∨ u = []) := by
      rintro (rfl | rfl) <;> simp_all
    have hne2 : ¬(u ≠ ['X'] ∧ u.length = 1) := by
      rintro ⟨hx, hlen⟩
      omega
    have hlook : lookupA u ProcessAnnotatedMutations.one_letter_aa_codes = none := by
      apply lookupA_eq_none_of
      intro kv hkv
      fin_cases hkv <;>
        · intro he
          subst he
          first
          | (revert h1; decide)
          | (revert h2; decide)
    simp only [map_aa_codes_table, if_neg hne1, if_neg hne2, hlook]

/-- Witness for C9 at concrete inputs. -/
theorem map_aa_codes_spec_witness :
    ProcessAnnotatedMutations.map_aa_codes ['g','l','u'] = .ok ['E']
    ∧ ProcessAnnotatedMutations.map_aa_codes ['?','?','?'] = .error .UnrecognizedCode :=
  ⟨map_aa_codes_spec.1 (['G','L','U'], ['E']) (by decide) ['g','l','u'] (by decide),
   map_aa_codes_spec.2.2.2.2.2 ['?','?','?'] (by decide) (by decide)⟩

/-- C10: `map_aa_codes` applied to the empty string returns the empty string
without failing (in both source files), and consequently two empty
"no reported change" pairs compare concordant without error. -/
theorem map_aa_codes_empty_ok :
    ProcessAnnotatedMutations.map_aa_codes [] = .ok ([] : Str)
    ∧ AnnotationProcessing.map_aa_codes [] = .ok ([] : Str)
    ∧ AnnotationProcessing.is_concordant_ann ([], []) ([], []) = .ok true := by
  decide

/-- C1 counterexample: with the LOVD pair `(G, G)` and the single predicted
pair `(A, A)` both pairs are internally synonymous (each component maps to
itself under `map_aa_codes`), so the claim declares concordance, but
`is_concordant` returns `False`: it has no both-synonymous clause. -/
theorem is_concordant_syn_counterexample :
    ProcessAnnotatedMutations.is_concordant (['G'], ['G']) [(['A'], ['A'])] = .ok false
    ∧ ProcessAnnotatedMutations.map_aa_codes ['G'] = .ok ['G']
    ∧ ProcessAnnotatedMutations.map_aa_codes ['A'] = .ok ['A'] := by
  decide

/-- C1 amended: `is_concordant` maps only the LOVD pair through
`map_aa_codes` and returns `True` iff at least one predicted pair equals the
mapped LOVD pair componentwise (predicted pairs compared raw, no synonymous
clause); the single-pair `is_concordant_annotation` of
`validation/AnnotationProcessing.py` maps both pairs and returns `True` iff
the mapped pairs are equal or both pairs are internally synonymous. -/
theorem is_concordant_characterization
    (laa_change : Str × Str) (vep_aa_change : List (Str × Str)) (lb la : Str)
    (h1 : ProcessAnnotatedMutations.map_aa_codes laa_change.1 = .ok lb)
    (h2 : ProcessAnnotatedMutations.map_aa_codes laa_change.2 = .ok la) :
    (ProcessAnnotatedMutations.is_concordant laa_change vep_aa_change = .ok true ↔
      ∃ e ∈ vep_aa_change, lb = e.1 ∧ la = e.2)
    ∧ (∀ aa_change : Str × Str, ∀ ab af : Str,
        AnnotationProcessing.map_aa_codes laa_change.1 = .ok lb →
        AnnotationProcessing.map_aa_codes laa_change.2 = .ok la →
        AnnotationProcessing.map_aa_codes aa_change.1 = .ok ab →
        AnnotationProcessing.map_aa_codes aa_change.2 = .ok af →
        (AnnotationProcessing.is_concordant_ann laa_change aa_change = .ok true ↔
          ((lb = ab ∧ la = af) ∨ (lb = la ∧ ab = af)))) := by
  constructor
  · simp only [ProcessAnnotatedMutations.is_concordant, h1, h2]
    simp [List.any_eq_true, Bool.and_eq_true, decide_eq_true_eq]
  · intro aa_change ab af g1 g2 g3 g4
    simp only [AnnotationProcessing.is_concordant_ann, g1, g2, g3, g4]
    simp [Bool.or_eq_true, decide_eq_true_eq]

/-- Witness for C1's amended theorem at concrete inputs. -/
theorem is_concordant_characterization_witness :
    ProcessAnnotatedMutations.is_concordant (['G'], ['T','y','r']) [(['G'], ['Y'])] = .ok true ↔
      ∃ e ∈ ([(['G'], ['Y'])] : List (Str × Str)), ['G'] = e.1 ∧ ['Y'] = e.2 :=
  (is_concordant_characterization (['G'], ['T','y','r']) [(['G'], ['Y'])] ['G'] ['Y']
    (by decide) (by decide)).1

/-- Character allowed inside the captured group of the p-dot regex
(anything except the closing brackets of the character class). -/
def notCloser (c : Char) : Bool := !(c == ')' || c == ']')

/-- Match of the p-dot regex after the leading `p.` has been consumed:
an optional opening bracket, then a nonempty greedy run of characters other
than a closing bracket (the captured group); the optional opening bracket is
released when the group would otherwise be empty. -/
def pdotInner (rest : Str) : Option Str :=
  match rest with
  | [] => none
  | c :: t =>
    if c = '(' ∨ c = '[' then
      let g := t.takeWhile notCloser
      if g.isEmpty then some ((c :: t).takeWhile notCloser) else some g
    else
      let g := (c :: t).takeWhile notCloser
      if g.isEmpty then none else some g

/-- Attempted match of the p-dot regex at the head of the string. -/
def pdotMatchAt : Str → Option Str
  | c :: d :: r => if (c = 'p' ∨ c = 'P') ∧ d = '.' then pdotInner r else none
  | _ => none

/-- Leftmost search of the p-dot regex. -/
def pdotSearch : Str → Option Str
  | [] => none
  | c :: t =>
    match pdotMatchAt (c :: t) with
    | some g => some g
    | none => pdotSearch t

/-- `remove_p_dot_notation` of `process_annotated_mutations.py` (lines
195-215) and `validation/AnnotationProcessing.py` (lines 96-116); the two
copies are semantically identical and the source name carries a reserved
suffix, so it is shortened here.  Searches for the p-dot pattern anywhere in
the text, returns the captured group when found, passes the placeholder `-`
through, and fails otherwise. -/
def remove_p_dot (text : Str) : Except Err Str :=
  match pdotSearch text with
  | some g => .ok g
  | none => if text = ['-'] then .ok ['-'] else .error .InvalidPDot

lemma takeWhile_all (p : Char → Bool) (l : Str) (hl : ∀ c ∈ l, p c = true) :
    l.takeWhile p = l := by
  induction l with
  | nil => rfl
  | cons a t ih =>
    have ha : p a = true := hl a (by simp)
    have ht : ∀ c ∈ t, p c = true := fun c hc => hl c (by simp [hc])
    simp [List.takeWhile_cons, ha, ih ht]

lemma takeWhile_append_cons (p : Char → Bool) (l : Str) (b : Char) (r : Str)
    (hl : ∀ c ∈ l, p c = true) (hb : p b = false) :
    (l ++ b :: r).takeWhile p = l := by
  induction l with
  | nil => simp [List.takeWhile_cons, hb]
  | cons a t ih =>
    have ha : p a = true := hl a (by simp)
    have ht : ∀ c ∈ t, p c = true := fun c hc => hl c (by simp [hc])
    simp [List.takeWhile_cons, ha, ih ht]

lemma dropWhile_append_cons (p : Char → Bool) (l : Str) (b : Char) (r : Str)
    (hl : ∀ c ∈ l, p c = true) (hb : p b = false) :
    (l ++ b :: r).dropWhile p = b :: r := by
  induction l with
  | nil => simp [List.dropWhile_cons, hb]
  | cons a t ih =>
    have ha : p a = true := hl a (by simp)
    have ht : ∀ c ∈ t, p c = true := fun c hc => hl c (by simp [hc])
    simp [List.dropWhile_cons, ha, ih ht]

lemma pdotSearch_eq_none (s : Str) (h1 : pyIn ['p', '.'] s = false)
    (h2 : pyIn ['P', '.'] s = false) : pdotSearch s = none := by
  induction s with
  | nil => rfl
  | cons c t ih =>
    simp only [pyIn, Bool.or_eq_false_iff] at h1 h2
    obtain ⟨h1a, h1b⟩ := h1
    obtain ⟨h2a, h2b⟩ := h2
    have hm : pdotMatchAt (c :: t) = none := by
      cases t with
      | nil => rfl
      | cons d r =>
        by_cases hc : (c = 'p' ∨ c = 'P') ∧ d = '.'
        · exfalso
          obtain ⟨hc1, hc2⟩ := hc
          subst hc2
          rcases hc1 with rfl | rfl
          · simp [isPre] at h1a
          · simp [isPre] at h2a
        · simp [pdotMatchAt, hc]
    simp [pdotSearch, hm, ih h1b h2b]

/-- C7 counterexample: `xp.A` does not start with case-insensitive `p.` and
is not `-`, yet `remove_p_dot_notation` parses it (the regex is searched
anywhere in the text), returning `A` instead of failing. -/
theorem remove_p_dot_start_counterexample :
    remove_p_dot ['x', 'p', '.', 'A'] = .ok ['A']
    ∧ ['x', 'p', '.', 'A'] ≠ (['-'] : Str)
    ∧ isPre ['p', '.'] ['x', 'p', '.', 'A'] = false
    ∧ isPre ['P', '.'] ['x', 'p', '.', 'A'] = false := by
  decide

/-- C7 amended: `remove_p_dot_notation` returns the inner change text for
inputs of the form `p.<inner>`, `p.(<inner>)`, `p.[<inner>]` (leading `p.`
case-insensitive, tolerating a missing closing bracket), passes the literal
placeholder `-` through unchanged, and fails for every input that CONTAINS
no case-insensitive `p.` substring and is not `-` (the source searches for
the pattern anywhere, not only at the start). -/
theorem remove_p_dot_spec :
    (∀ c0 : Char, ∀ irest : Str, notCloser c0 = true → ¬(c0 = '(' ∨ c0 = '[') →
      (∀ c ∈ irest, notCloser c = true) →
      remove_p_dot ('p' :: '.' :: c0 :: irest) = .ok (c0 :: irest)
      ∧ remove_p_dot ('P' :: '.' :: c0 :: irest) = .ok (c0 :: irest))
    ∧ (∀ inner : Str, inner ≠ [] → (∀ c ∈ inner, notCloser c = true) →
        remove_p_dot ('p' :: '.' :: '(' :: (inner ++ [')'])) = .ok inner
        ∧ remove_p_dot ('p' :: '.' :: '[' :: (inner ++ [']'])) = .ok inner
        ∧ remove_p_dot ('p' :: '.' :: '(' :: inner) = .ok inner)
    ∧ remove_p_dot ['-'] = .ok ['-']
    ∧ (∀ s : Str, pyIn ['p', '.'] s = false → pyIn ['P', '.'] s = false → s ≠ ['-'] →
        remove_p_dot s = .error .InvalidPDot) := by
  refine ⟨?_, ?_, by decide, ?_⟩
  · intro c0 irest hc0 hnb hrest
    have hall : ∀ c ∈ c0 :: irest, notCloser c = true := by
      intro c hc
      rcases List.mem_cons.mp hc with rfl | hc
      · exact hc0
      · exact hrest c hc
    have hinner : pdotInner (c0 :: irest) = some (c0 :: irest) := by
      have htw : (c0 :: irest).takeWhile notCloser = c0 :: irest := takeWhile_all _ _ hall
      simp [pdotInner, if_neg hnb, htw]
    constructor <;> simp [remove_p_dot, pdotSearch, pdotMatchAt, hinner]
  · intro inner hne hall
    have hcl : notCloser ')' = false := by decide
    have hcl2 : notCloser ']' = false := by decide
    have htw1 : (inner ++ [')']).takeWhile notCloser = inner := by
      simpa using takeWhile_append_cons notCloser inner ')' [] hall hcl
    have htw2 : (inner ++ [']']).takeWhile notCloser = inner := by
      simpa using takeWhile_append_cons notCloser inner ']' [] hall hcl2
    have htw3 : inner.takeWhile notCloser = inner := takeWhile_all _ _ hall
    have hie : inner.isEmpty = false := by
      cases inner with
      | nil => exact absurd rfl hne
      | cons a t => rfl
    refine ⟨?_, ?_, ?_⟩ <;>
      simp [remove_p_dot, pdotSearch, pdotMatchAt, pdotInner, htw1, htw2, htw3, hie]
  · intro s h1 h2 hne
    simp [remove_p_dot, pdotSearch_eq_none s h1 h2, if_neg hne]

/-- Witness for C7's amended theorem at concrete inputs. -/
theorem remove_p_dot_spec_witness :
    remove_p_dot ('p' :: '.' :: 'G' :: ['5', 'A']) = .ok ('G' :: ['5', 'A'])
    ∧ remove_p_dot ('p' :: '.' :: '(' :: (['G', '5', 'A'] ++ [')'])) = .ok ['G', '5', 'A']
    ∧ remove_p_dot ['x', 'y'] = .error .InvalidPDot :=
  ⟨(remove_p_dot_spec.1 'G' ['5', 'A'] (by decide) (by decide) (by decide)).1,
   (remove_p_dot_spec.2.1 ['G', '5', 'A'] (by decide) (by decide)).1,
   remove_p_dot_spec.2.2.2 ['x', 'y'] (by decide) (by decide) (by decide)⟩

/-- Character class of the first captured group of the LAA_CHANGE regex,
`[A-Za-z\*\?]`. -/
def isClass1 (c : Char) : Bool := isAsciiAlpha c || c == '*' || c == '?'

/-- Character class of the second captured group of the LAA_CHANGE regex,
`[A-Za-z\*]`. -/
def isClass2 (c : Char) : Bool := isAsciiAlpha c || c == '*'

/-- Character class `[\d+]` of the LAA_CHANGE regex in
`validation/AnnotationProcessing.py` (a digit or a literal plus). -/
def isDigitPlus (c : Char) : Bool := isAsciiDigit c || c == '+'

lemma isAsciiUpper_iff (c : Char) : isAsciiUpper c = true ↔ 65 ≤ c.toNat ∧ c.toNat ≤ 90 := by
  simp [isAsciiUpper]

lemma isAsciiLower_iff (c : Char) : isAsciiLower c = true ↔ 97 ≤ c.toNat ∧ c.toNat ≤ 122 := by
  simp [isAsciiLower]

lemma alpha_not_digit (c : Char) (h : isAsciiAlpha c = true) : isAsciiDigit c = false := by
  simp only [isAsciiAlpha, Bool.or_eq_true] at h
  rcases h with h | h
  · have hn := (isAsciiUpper_iff c).mp h
    simp [isAsciiDigit]
    omega
  · have hn := (isAsciiLower_iff c).mp h
    simp [isAsciiDigit]
    omega

lemma digit_not_alpha (c : Char) (h : isAsciiDigit c = true) : isAsciiAlpha c = false := by
  have hn : 48 ≤ c.toNat ∧ c.toNat ≤ 57 := by
    simpa [isAsciiDigit] using h
  simp [isAsciiAlpha, isAsciiUpper, isAsciiLower]
  omega

lemma alpha_class1 (c : Char) (h : isAsciiAlpha c = true) : isClass1 c = true := by
  simp [isClass1, h]

lemma alpha_class2 (c : Char) (h : isAsciiAlpha c = true) : isClass2 c = true := by
  simp [isClass2, h]

lemma digit_not_class1 (c : Char) (h : isAsciiDigit c = true) : isClass1 c = false := by
  have h1 : isAsciiAlpha c = false := digit_not_alpha c h
  have h2 : c ≠ '*' := by intro he; subst he; revert h; decide
  have h3 : c ≠ '?' := by intro he; subst he; revert h; decide
  simp [isClass1, h1, h2, h3]

lemma digitPlus_not_class1 (c : Char) (h : isDigitPlus c = true) : isClass1 c = false := by
  simp only [isDigitPlus, Bool.or_eq_true, beq_iff_eq] at h
  rcases h with h | rfl
  · exact digit_not_class1 c h
  · decide

lemma alpha_not_digitPlus (c : Char) (h : isAsciiAlpha c = true) : isDigitPlus c = false := by
  have h1 : isAsciiDigit c = false := alpha_not_digit c h
  have h2 : c ≠ '+' := by intro he; subst he; revert h; decide
  simp [isDigitPlus, h1, h2]

lemma class2_not_digitPlus (c : Char) (h : isClass2 c = true) : isDigitPlus c = false := by
  simp only [isClass2, Bool.or_eq_true, beq_iff_eq] at h
  rcases h with h | rfl
  · exact alpha_not_digitPlus c h
  · decide

/-- Attempted match of the LAA_CHANGE regex
`([A-Za-z\*\?]{1,3})[\d+]+([A-Za-z\*]{1,3})[A-Za-z\*\?]*\d*` at the head of
the string.  The class-1 run, the digit/plus run and the class-2 run use
disjoint character classes, so the greedy `{1,3}` group can only succeed by
taking a whole class-1 run of length 1 to 3; the trailing `[A-Za-z\*\?]*\d*`
always matches and constrains nothing. -/
def laaMatchAt (s : Str) : Option (Str × Str) :=
  if s.takeWhile isClass1 = [] ∨ 3 < (s.takeWhile isClass1).length then none
  else
    match s.drop (s.takeWhile isClass1).length with
    | [] => none
    | c :: t =>
      if isDigitPlus c then
        match ((c :: t).dropWhile isDigitPlus).takeWhile isClass2 with
        | [] => none
        | e :: et => some (s.takeWhile isClass1, (e :: et).take 3)
      else none

/-- Leftmost search of the LAA_CHANGE regex. -/
def laaSearch : Str → Option (Str × Str)
  | [] => none
  | c :: t =>
    match laaMatchAt (c :: t) with
    | some r => some r
    | none => laaSearch t

namespace AnnotationProcessing

/-- `validation/AnnotationProcessing.py::get_laa_change` (lines 119-155),
with the tag-extraction step (`get_tagged_entry_value`) factored out: it
takes the raw LAA_CHANGE tag value.  Strips the p-dot wrapper, rejects
values containing an indel/frameshift marker, maps the placeholders `-`,
`=`, `?` to the empty pair, and otherwise parses the change regex. -/
def get_laa_change (laa_change_value : Str) : Except Err (Str × Str) :=
  match remove_p_dot laa_change_value with
  | .error e => .error e
  | .ok v =>
    if pyIn ['i', 'n', 's'] v || pyIn ['d', 'e', 'l'] v || pyIn ['f', 's'] v then
      .error .IndelDetected
    else if v = ['-'] ∨ v = ['='] ∨ v = ['?'] then .ok ([], [])
    else
      match laaSearch v with
      | some (b, a) => .ok (b, a)
      | none => .error .UnexpectedFormat

end AnnotationProcessing

lemma laaMatchAt_structured (c1 d c2 rest : Str)
    (hc1ne : c1 ≠ []) (hc1len : c1.length ≤ 3) (hc1 : ∀ c ∈ c1, isClass1 c = true)
    (hdne : d ≠ []) (hd : ∀ c ∈ d, isDigitPlus c = true)
    (hc2ne : c2 ≠ []) (hc2 : ∀ c ∈ c2, isClass2 c = true)
    (hstop : rest = [] ∨ ∃ r0 rr, rest = r0 :: rr ∧ isClass2 r0 = false) :
    laaMatchAt (c1 ++ d ++ c2 ++ rest) = some (c1, c2.take 3) := by
  obtain ⟨d0, dt, rfl⟩ : ∃ d0 dt, d = d0 :: dt := by
    cases d with
    | nil => exact absurd rfl hdne
    | cons d0 dt => exact ⟨d0, dt, rfl⟩
  obtain ⟨e0, et, rfl⟩ : ∃ e0 et, c2 = e0 :: et := by
    cases c2 with
    | nil => exact absurd rfl hc2ne
    | cons e0 et => exact ⟨e0, et, rfl⟩
  have hd0c : isClass1 d0 = false := digitPlus_not_class1 d0 (hd d0 (by simp))
  have hrun1 : (c1 ++ (d0 :: dt) ++ (e0 :: et) ++ rest).takeWhile isClass1 = c1 := by
    have he : c1 ++ (d0 :: dt) ++ (e0 :: et) ++ rest
        = c1 ++ d0 :: (dt ++ ((e0 :: et) ++ rest)) := by
      simp [List.append_assoc]
    rw [he]
    exact takeWhile_append_cons isClass1 c1 d0 _ hc1 hd0c
  have hdrop : (c1 ++ (d0 :: dt) ++ (e0 :: et) ++ rest).drop c1.length
      = (d0 :: dt) ++ ((e0 :: et) ++ rest) := by
    have he : c1 ++ (d0 :: dt) ++ (e0 :: et) ++ rest
        = c1 ++ ((d0 :: dt) ++ ((e0 :: et) ++ rest)) := by
      simp [List.append_assoc]
    rw [he]
    exact List.drop_left c1 _
  have he0dp : isDigitPlus e0 = false := class2_not_digitPlus e0 (hc2 e0 (by simp))
  have hdw : ((d0 :: dt) ++ ((e0 :: et) ++ rest)).dropWhile isDigitPlus
      = (e0 :: et) ++ rest := by
    have he : (d0 :: dt) ++ ((e0 :: et) ++ rest) = (d0 :: dt) ++ e0 :: (et ++ rest) := by
      simp
    rw [he]
    exact dropWhile_append_cons isDigitPlus (d0 :: dt) e0 _ hd he0dp
  have hrun2 : ((e0 :: et) ++ rest).takeWhile isClass2 = e0 :: et := by
    rcases hstop with rfl | ⟨r0, rr, rfl, hr0⟩
    · rw [List.append_nil]
      exact takeWhile_all isClass2 _ hc2
    · have he : (e0 :: et) ++ r0 :: rr = (e0 :: et) ++ r0 :: rr := rfl
      exact takeWhile_append_cons isClass2 (e0 :: et) r0 rr hc2 hr0
  have hcond : ¬(c1 ++ (d0 :: dt) ++ (e0 :: et) ++ rest |>.takeWhile isClass1) = [] ∧
      ¬(3 < ((c1 ++ (d0 :: dt) ++ (e0 :: et) ++ rest).takeWhile isClass1).length) := by
    rw [hrun1]
    exact ⟨hc1ne, by omega⟩
  have hdp0 : isDigitPlus d0 = true := hd d0 (by simp)
  rw [laaMatchAt, if_neg (by rw [hrun1]; push_neg; exact ⟨hc1ne, by omega⟩)]
  rw [hrun1, hdrop]
  simp only [List.cons_append] at hdw ⊢
  rw [hdp0]
  simp only [if_true]
  have hdw2 : List.dropWhile isDigitPlus (d0 :: (dt ++ (e0 :: (et ++ rest))))
      = e0 :: (et ++ rest) := by
    simpa using hdw
  rw [hdw2]
  have hrun22 : List.takeWhile isClass2 (e0 :: (et ++ rest)) = e0 :: et := by
    simpa using hrun2
  rw [hrun22]

lemma laaSearch_cons_of_match (c : Char) (t : Str) (r : Str × Str)
    (h : laaMatchAt (c :: t) = some r) : laaSearch (c :: t) = some r := by
  simp [laaSearch, h]

/-- C3: `get_laa_change` maps a stripped value of `-`, `=` or `?` to the
empty pair, rejects stripped values containing an `ins`/`del`/`fs` marker
with the indel error, parses values of the shape
`<1-3 letter code><digits><1-3 letter code><trailing>` into the two captured
codes, and fails with the unexpected-format error when the change regex does
not match. -/
theorem get_laa_change_spec :
    (∀ val v : Str, remove_p_dot val = .ok v → (v = ['-'] ∨ v = ['='] ∨ v = ['?']) →
      AnnotationProcessing.get_laa_change val = .ok ([], []))
    ∧ (∀ val v : Str, remove_p_dot val = .ok v →
        (pyIn ['i', 'n', 's'] v = true ∨ pyIn ['d', 'e', 'l'] v = true ∨ pyIn ['f', 's'] v = true) →
        AnnotationProcessing.get_laa_change val = .error .IndelDetected)
    ∧ (∀ val c1 d c2 rest : Str,
        remove_p_dot val = .ok (c1 ++ d ++ c2 ++ rest) →
        pyIn ['i', 'n', 's'] (c1 ++ d ++ c2 ++ rest) = false →
        pyIn ['d', 'e', 'l'] (c1 ++ d ++ c2 ++ rest) = false →
        pyIn ['f', 's'] (c1 ++ d ++ c2 ++ rest) = false →
        c1 ≠ [] → c1.length ≤ 3 → (∀ c ∈ c1, isAsciiAlpha c = true) →
        d ≠ [] → (∀ c ∈ d, isAsciiDigit c = true) →
        c2 ≠ [] → c2.length ≤ 3 → (∀ c ∈ c2, isAsciiAlpha c = true) →
        (rest = [] ∨ ∃ r0 rr, rest = r0 :: rr ∧ isClass2 r0 = false) →
        AnnotationProcessing.get_laa_change val = .ok (c1, c2))
    ∧ (∀ val v : Str, remove_p_dot val = .ok v →
        pyIn ['i', 'n', 's'] v = false → pyIn ['d', 'e', 'l'] v = false →
        pyIn ['f', 's'] v = false →
        ¬(v = ['-'] ∨ v = ['='] ∨ v = ['?']) → laaSearch v = none →
        AnnotationProcessing.get_laa_change val = .error .UnexpectedFormat) := by
  refine ⟨?_, ?_, ?_, ?_⟩
  · intro val v h1 h2
    rcases h2 with rfl | rfl | rfl <;>
      · simp only [AnnotationProcessing.get_laa_change, h1]
        decide
  · intro val v h1 h2
    have hcond : (pyIn ['i', 'n', 's'] v || pyIn ['d', 'e', 'l'] v || pyIn ['f', 's'] v) = true := by
      rcases h2 with h | h | h <;> simp [h]
    simp [AnnotationProcessing.get_laa_change, h1, hcond]
  · intro val c1 d c2 rest h1 hm1 hm2 hm3 hc1ne hc1len hc1 hdne hd hc2ne hc2len hc2 hstop
    have hlen : 2 ≤ (c1 ++ d ++ c2 ++ rest).length := by
      have l1 : 0 < c1.length := List.length_pos.mpr hc1ne
      have l2 : 0 < d.length := List.length_pos.mpr hdne
      simp only [List.length_append]
      omega
    have hden : ¬((c1 ++ d ++ c2 ++ rest) = ['-'] ∨ (c1 ++ d ++ c2 ++ rest) = ['=']
        ∨ (c1 ++ d ++ c2 ++ rest) = ['?']) := by
      rintro (heq | heq | heq) <;> (rw [heq] at hlen; simp at hlen)
    have ht3 : c2.take 3 = c2 := List.take_of_length_le hc2len
    have hmatch := laaMatchAt_structured c1 d c2 rest hc1ne hc1len
      (fun c hc => alpha_class1 c (hc1 c hc)) hdne
      (fun c hc => by simp [isDigitPlus, hd c hc]) hc2ne
      (fun c hc => alpha_class2 c (hc2 c hc)) hstop
    have hsearch : laaSearch (c1 ++ d ++ c2 ++ rest) = some (c1, c2) := by
      obtain ⟨a0, c1t, rfl⟩ : ∃ a0 t, c1 = a0 :: t := by
        cases c1 with
        | nil => exact absurd rfl hc1ne
        | cons a0 c1t => exact ⟨a0, c1t, rfl⟩
      have hshape : (a0 :: c1t) ++ d ++ c2 ++ rest = a0 :: (c1t ++ d ++ c2 ++ rest) := by
        simp
      rw [hshape] at hmatch ⊢
      rw [ht3] at hmatch
      exact laaSearch_cons_of_match a0 _ _ hmatch
    simp only [List.append_assoc] at hm1 hm2 hm3 hden hsearch
    simp [AnnotationProcessing.get_laa_change, h1, hm1, hm2, hm3, hden, hsearch]
  · intro val v h1 hm1 hm2 hm3 hden hnone
    simp [AnnotationProcessing.get_laa_change, h1, hm1, hm2, hm3, hden, hnone]

/-- Witness for C3 at concrete inputs. -/
theorem get_laa_change_spec_witness :
    AnnotationProcessing.get_laa_change ['p', '.', 'G', '5', 'A'] = .ok (['G'], ['A'])
    ∧ AnnotationProcessing.get_laa_change ['p', '.', '1', '2', 'd', 'e', 'l'] =
        .error .IndelDetected
    ∧ AnnotationProcessing.get_laa_change ['p', '.', '='] = .ok ([], []) :=
  ⟨get_laa_change_spec.2.2.1 ['p', '.', 'G', '5', 'A'] ['G'] ['5'] ['A'] []
      (by decide) (by decide) (by decide) (by decide) (by decide) (by decide) (by decide)
      (by decide) (by decide) (by decide) (by decide) (by decide) (Or.inl rfl),
   get_laa_change_spec.2.1 ['p', '.', '1', '2', 'd', 'e', 'l'] ['1', '2', 'd', 'e', 'l']
      (by decide) (Or.inr (Or.inl (by decide))),
   get_laa_change_spec.1 ['p', '.', '='] ['='] (by decide) (Or.inr (Or.inl rfl))⟩

/-- Attempted match of the tag regex `(?:^|;)TAG=([^;]*)(?:;|$)` at a given
position (the position itself must be anchored by the caller): the tag is
compared case-insensitively, then a literal `=`, then the greedy value run of
non-`;` characters (with the default `;` entry delimiter the trailing
`(?:;|$)` is always satisfied). -/
def tagMatchAt (tag s : Str) : Option Str :=
  if isPre (upperStr tag) (upperStr s) then
    match s.drop tag.length with
    | c :: v => if c = '=' then some (v.takeWhile (fun x => !(x == ';'))) else none
    | [] => none
  else none

/-- Scanner for the tag regex: `anchored` records whether the current
position is the start of the string or immediately follows the `;` entry
delimiter (the positions at which `(?:^|;)` can match). -/
def tagSearchAux (tag : Str) : Bool → Str → Option Str
  | anchored, [] => if anchored then tagMatchAt tag [] else none
  | anchored, c :: t =>
    match (if anchored then tagMatchAt tag (c :: t) else none) with
    | some v => some v
    | none => tagSearchAux tag (c == ';') t

/-- Leftmost search of the tag regex over the whole info column. -/
def tagSearch (tag s : Str) : Option Str := tagSearchAux tag true s

/-- `process_annotated_mutations.py::get_unique_tagged_entry_values`
(lines 162-192), at the default delimiters (entries separated by `;`, values
by `,`; the source builds the regex from its delimiter parameters, with the
value class `[^;]*` fixed).  The Python `list(set(...))` has unspecified
order; it is modelled by `List.dedup`, and the order-insensitive content is
what the accompanying theorem states. -/
def get_unique_tagged_entry_values (info_column tag : Str) : Except Err (List Str) :=
  match tagSearch tag info_column with
  | some v =>
    .ok (((List.splitOn ',' v).filter (fun x => !(x == ['-']) && !(x == ([] : Str)))).dedup)
  | none => .error .TagNotFound

lemma isPre_append (t r : Str) : isPre t (t ++ r) = true := by
  induction t with
  | nil => rfl
  | cons a as ih => simp [isPre, ih]

lemma eq_take_of_isPre : ∀ t u : Str, isPre t u = true → u.take t.length = t := by
  intro t
  induction t with
  | nil => intro u _; rfl
  | cons a as ih =>
    intro u h
    cases u with
    | nil => simp [isPre] at h
    | cons b bs =>
      simp only [isPre, Bool.and_eq_true, beq_iff_eq] at h
      obtain ⟨rfl, h2⟩ := h
      simp [List.take_cons, ih bs h2]

lemma upperStr_length (s : Str) : (upperStr s).length = s.length := by
  simp [upperStr]

lemma tagMatchAt_sound (tag s v : Str) (h : tagMatchAt tag s = some v) :
    ∃ tagm post, s = tagm ++ '=' :: post ∧ upperStr tagm = upperStr tag
      ∧ v = post.takeWhile (fun x => !(x == ';')) := by
  by_cases hp : isPre (upperStr tag) (upperStr s) = true
  · refine ⟨s.take tag.length, ?_⟩
    have htake : (upperStr s).take (upperStr tag).length = upperStr tag :=
      eq_take_of_isPre _ _ hp
    have hci : upperStr (s.take tag.length) = upperStr tag := by
      rw [upperStr_length] at htake
      simpa [upperStr, List.map_take] using htake
    rw [tagMatchAt, if_pos hp] at h
    cases hdrop : s.drop tag.length with
    | nil => rw [hdrop] at h; simp at h
    | cons c post =>
      rw [hdrop] at h
      have h2 : (if c = '=' then some (List.takeWhile (fun x => !(x == ';')) post)
          else none) = some v := h
      by_cases hc : c = '='
      · subst hc
        rw [if_pos rfl] at h2
        simp only [Option.some.injEq] at h2
        refine ⟨post, ?_, hci, h2.symm⟩
        conv_lhs => rw [← List.take_append_drop tag.length s]
        rw [hdrop]
      · rw [if_neg hc] at h2
        cases h2
  · rw [tagMatchAt, if_neg hp] at h
    cases h

lemma tagMatchAt_complete (tag tagm post : Str) (h : upperStr tagm = upperStr tag) :
    tagMatchAt tag (tagm ++ '=' :: post) = some (post.takeWhile (fun x => !(x == ';'))) := by
  have hlen : tagm.length = tag.length := by
    have h2 := congrArg List.length h
    simpa [upperStr] using h2
  have hp : isPre (upperStr tag) (upperStr (tagm ++ '=' :: post)) = true := by
    rw [← h]
    simp only [upperStr, List.map_append]
    exact isPre_append _ _
  rw [tagMatchAt, if_pos hp]
  have hdrop : (tagm ++ '=' :: post).drop tag.length = '=' :: post := by
    rw [← hlen]
    exact List.drop_left tagm _
  rw [hdrop]
  rfl

lemma tagSearchAux_sound (tag : Str) : ∀ (s : Str) (anchored : Bool) (v : Str),
    tagSearchAux tag anchored s = some v →
    ∃ pre tagm post, s = pre ++ tagm ++ '=' :: post ∧ upperStr tagm = upperStr tag
      ∧ v = post.takeWhile (fun x => !(x == ';'))
      ∧ ((pre = [] ∧ anchored = true) ∨ ∃ pre2, pre = pre2 ++ [';']) := by
  intro s
  induction s with
  | nil =>
    intro anchored v h
    cases anchored with
    | false => cases h
    | true =>
      have h2 : tagMatchAt tag [] = some v := h
      obtain ⟨tagm, post, heq, -, -⟩ := tagMatchAt_sound tag [] v h2
      exact absurd heq.symm (by simp)
  | cons c t ih =>
    intro anchored v h
    simp only [tagSearchAux] at h
    cases hm : (if anchored then tagMatchAt tag (c :: t) else none) with
    | some w =>
      rw [hm] at h
      simp only [Option.some.injEq] at h
      subst h
      cases anchored with
      | false => simp at hm
      | true =>
        rw [if_pos rfl] at hm
        obtain ⟨tagm, post, heq, hci, hv⟩ := tagMatchAt_sound tag (c :: t) w hm
        exact ⟨[], tagm, post, by simpa using heq, hci, hv, Or.inl ⟨rfl, rfl⟩⟩
    | none =>
      rw [hm] at h
      obtain ⟨pre1, tagm, post, heq, hci, hv, hanch⟩ := ih (c == ';') v h
      refine ⟨c :: pre1, tagm, post, by simp [heq], hci, hv, ?_⟩
      rcases hanch with ⟨rfl, hsc⟩ | ⟨pre2, rfl⟩
      · have hc : c = ';' := by simpa using hsc
        subst hc
        exact Or.inr ⟨[], rfl⟩
      · exact Or.inr ⟨c :: pre2, by simp⟩

lemma tagSearchAux_complete (tag : Str) : ∀ (pre : Str) (anchored : Bool) (tagm post : Str),
    upperStr tagm = upperStr tag →
    (pre = [] → anchored = true) →
    (pre = [] ∨ ∃ pre2, pre = pre2 ++ [';']) →
    (tagSearchAux tag anchored (pre ++ tagm ++ '=' :: post)).isSome = true := by
  intro pre
  induction pre with
  | nil =>
    intro anchored tagm post hci hanch _
    have ha : anchored = true := hanch rfl
    subst ha
    have hmc := tagMatchAt_complete tag tagm post hci
    cases hne : tagm ++ '=' :: post with
    | nil => exact absurd hne (by simp)
    | cons c0 t0 =>
      rw [hne] at hmc
      simp only [List.nil_append, hne, tagSearchAux, if_pos rfl, hmc]
      rfl
  | cons c pre' ih =>
    intro anchored tagm post hci hanch hsep
    rcases hsep with h0 | ⟨pre2, hp2⟩
    · cases h0
    · simp only [List.cons_append, tagSearchAux]
      cases hm : (if anchored then tagMatchAt tag (c :: (pre' ++ tagm ++ '=' :: post))
          else none) with
      | some w => simp
      | none =>
        simp only []
        cases pre2 with
        | nil =>
          simp only [List.nil_append] at hp2
          injection hp2 with h1 h2
          subst h1
          subst h2
          exact ih (';' == ';') tagm post hci (fun _ => by decide) (Or.inl rfl)
        | cons x xs =>
          simp only [List.cons_append] at hp2
          injection hp2 with h1 h2
          subst h2
          refine ih (c == ';') tagm post hci ?_ (Or.inr ⟨xs, rfl⟩)
          intro habs
          exact absurd habs (by simp)

/-- C8: `get_unique_tagged_entry_values` returns, for the leftmost `tag=value`
entry anchored at the start of the info string or right after the `;` entry
delimiter, exactly the distinct elements of `value` split on the `,` value
delimiter with empty strings and `-` placeholders removed, and fails with
`TagNotFound` when no such anchored entry exists.  The third and fourth
conjuncts characterise the internal search: a value is found iff the info
string decomposes as `pre ++ tag ++ '=' ++ value ++ ...` with `pre` empty or
ending in `;` (so a tag never matches as the suffix of a longer tag), with
the tag compared case-insensitively as in the source regex. -/
theorem get_unique_tagged_entry_values_spec :
    (∀ info tag v : Str, tagSearch tag info = some v →
      ∃ L, get_unique_tagged_entry_values info tag = .ok L ∧ L.Nodup
        ∧ ∀ x : Str, x ∈ L ↔ (x ∈ List.splitOn ',' v ∧ x ≠ ['-'] ∧ x ≠ []))
    ∧ (∀ info tag : Str, tagSearch tag info = none →
        get_unique_tagged_entry_values info tag = .error .TagNotFound)
    ∧ (∀ info tag v : Str, tagSearch tag info = some v →
        ∃ pre tagm post, info = pre ++ tagm ++ '=' :: post
          ∧ upperStr tagm = upperStr tag
          ∧ v = post.takeWhile (fun x => !(x == ';'))
          ∧ (pre = [] ∨ ∃ pre2, pre = pre2 ++ [';']))
    ∧ (∀ pre tagm post tag : Str, upperStr tagm = upperStr tag →
        (pre = [] ∨ ∃ pre2, pre = pre2 ++ [';']) →
        ∃ w, tagSearch tag (pre ++ tagm ++ '=' :: post) = some w) := by
  refine ⟨?_, ?_, ?_, ?_⟩
  · intro info tag v h
    refine ⟨((List.splitOn ',' v).filter
        (fun x => !(x == ['-']) && !(x == ([] : Str)))).dedup, ?_, List.nodup_dedup _, ?_⟩
    · simp [get_unique_tagged_entry_values, h]
    · intro x
      simp [List.mem_dedup, List.mem_filter, and_assoc]
  · intro info tag h
    simp [get_unique_tagged_entry_values, h]
  · intro info tag v h
    obtain ⟨pre, tagm, post, heq, hci, hv, hanch⟩ := tagSearchAux_sound tag info true v h
    refine ⟨pre, tagm, post, heq, hci, hv, ?_⟩
    rcases hanch with ⟨rfl, -⟩ | h2
    · exact Or.inl rfl
    · exact Or.inr h2
  · intro pre tagm post tag hci hsep
    have h := tagSearchAux_complete tag pre true tagm post hci (fun _ => rfl) hsep
    exact Option.isSome_iff_exists.mp h

/-- Witness for C8 at concrete inputs: the tag `AA` is found anchored after a
`;` (value `G/A,G/A,-`, de-duplicated and filtered), and is not found in
`LAA=5`, where it occurs only as the suffix of the longer tag `LAA`. -/
theorem get_unique_tagged_entry_values_spec_witness :
    (∃ L, get_unique_tagged_entry_values
        ['X', '=', '1', ';', 'A', 'A', '=', 'G', '/', 'A', ',', 'G', '/', 'A', ',', '-']
        ['A', 'A'] = .ok L ∧ L.Nodup
      ∧ ∀ x : Str, x ∈ L ↔
          (x ∈ List.splitOn ',' ['G', '/', 'A', ',', 'G', '/', 'A', ',', '-']
            ∧ x ≠ ['-'] ∧ x ≠ []))
    ∧ get_unique_tagged_entry_values ['L', 'A', 'A', '=', '5'] ['A', 'A'] =
        .error .TagNotFound :=
  ⟨get_unique_tagged_entry_values_spec.1
      ['X', '=', '1', ';', 'A', 'A', '=', 'G', '/', 'A', ',', 'G', '/', 'A', ',', '-']
      ['A', 'A'] ['G', '/', 'A', ',', 'G', '/', 'A', ',', '-'] (by decide),
   get_unique_tagged_entry_values_spec.2.1 ['L', 'A', 'A', '=', '5'] ['A', 'A'] (by decide)⟩

/-- Python `list[i]` for a nonnegative index: fails with `IndexError` when
out of range. -/
def pyIdx (l : List Str) (i : Nat) : Except Err Str :=
  match l.get? i with
  | some x => .ok x
  | none => .error .IndexErr

/-- Python `list[0]`. -/
def pyHead (l : List Str) : Except Err Str :=
  match l with
  | [] => .error .IndexErr
  | a :: _ => .ok a

/-- Attempted match of the splice regex `([+-]\d)([A-Z])>[A-Z]` (compiled
with IGNORECASE, so the letter classes accept both cases) at the head of the
string; returns the sign-and-offset group and the substituted base. -/
def spliceMatchAt : Str → Option (Str × Char)
  | s0 :: s1 :: s2 :: s3 :: s4 :: _ =>
    if (s0 = '+' ∨ s0 = '-') ∧ isAsciiDigit s1 = true ∧ isAsciiAlpha s2 = true
        ∧ s3 = '>' ∧ isAsciiAlpha s4 = true then
      some ([s0, s1], s2)
    else none
  | _ => none

/-- Leftmost search of the splice regex. -/
def spliceSearch : Str → Option (Str × Char)
  | [] => none
  | c :: t =>
    match spliceMatchAt (c :: t) with
    | some r => some r
    | none => spliceSearch t

/-- Normalisation of a VEP splice position: prefix `+` unless the value
already starts with `-` (the loop body of the source). -/
def spliceNormalize (v : Str) : Str := if isPre ['-'] v then v else '+' :: v

/-- The four evolutionarily conserved splice combinations of
`process_annotated_mutations.py` line 85, in source order. -/
def conserved_splice_combinations : List Str :=
  [['+', '1', 'G'], ['+', '2', 'T'], ['-', '2', 'A'], ['-', '1', 'G']]

/-- `process_annotated_mutations.py::is_concordant_splice_mutation`
(lines 70-93): extracts the first HGVS value and the REF column, parses the
intronic offset and substituted base from the HGVS string (failing when the
splice pattern is absent), and declares concordance when some VEP splice
position, `+`/`-`-normalised and suffixed with REF, equals the LOVD
offset-plus-base combination and that combination is conserved. -/
def is_concordant_splice_mutation (variant_vcf_row : List Str) : Except Err Bool :=
  match pyIdx variant_vcf_row 7 with
  | .error e => .error e
  | .ok info_column =>
    match get_unique_tagged_entry_values info_column ['H', 'G', 'V', 'S'] with
    | .error e => .error e
    | .ok hgvs_list =>
      match pyHead hgvs_list with
      | .error e => .error e
      | .ok hgvs =>
        match pyIdx variant_vcf_row 3 with
        | .error e => .error e
        | .ok ref =>
          match spliceSearch hgvs with
          | none => .error .UnexpectedFormat
          | some (lovd_splice_position, lovd_splice_base) =>
            match get_unique_tagged_entry_values info_column
                ['S', 'P', 'L', 'I', 'C', 'E', '_', 'P', 'O', 'S'] with
            | .error e => .error e
            | .ok vep_splice_position_list =>
              .ok (vep_splice_position_list.any fun vep_position =>
                decide (spliceNormalize vep_position ++ ref
                    = lovd_splice_position ++ [lovd_splice_base])
                && decide ((lovd_splice_position ++ [lovd_splice_base])
                    ∈ conserved_splice_combinations))

/-- C2: on a row whose HGVS value matches the splice pattern,
`is_concordant_splice_mutation` returns `True` iff the offset-plus-base
combination extracted from the HGVS string is one of the four conserved
combinations `+1G`, `+2T`, `-2A`, `-1G` AND some VEP splice position combined
with the row's REF base equals that combination; for any non-conserved
combination it returns `False` even when the REF base matches. -/
theorem splice_concordance_canonical_iff
    (row : List Str) (info hgvs ref : Str) (hrest : List Str)
    (pos : Str) (base : Char) (spl : List Str)
    (h1 : pyIdx row 7 = .ok info)
    (h2 : get_unique_tagged_entry_values info ['H', 'G', 'V', 'S'] = .ok (hgvs :: hrest))
    (h3 : pyIdx row 3 = .ok ref)
    (h4 : spliceSearch hgvs = some (pos, base))
    (h5 : get_unique_tagged_entry_values info ['S', 'P', 'L', 'I', 'C', 'E', '_', 'P', 'O', 'S']
        = .ok spl) :
    is_concordant_splice_mutation row = .ok true ↔
      ((pos ++ [base]) ∈ conserved_splice_combinations
        ∧ ∃ v ∈ spl, spliceNormalize v ++ ref = pos ++ [base]) := by
  simp only [is_concordant_splice_mutation, h1, h2, pyHead, h3, h4, h5]
  simp only [Except.ok.injEq, List.any_eq_true, Bool.and_eq_true, decide_eq_true_eq]
  constructor
  · rintro ⟨v, hv, he, hm⟩
    exact ⟨hm, v, hv, he⟩
  · rintro ⟨hm, v, hv, he⟩
    exact ⟨v, hv, he, hm⟩

/-- Witness for C2 at a concrete VCF row (`REF=G`, `HGVS=c.12+1G>A`,
`SPLICE_POS=1`). -/
theorem splice_concordance_canonical_iff_witness :
    is_concordant_splice_mutation
      [['1'], ['2'], ['3'], ['G'], ['A'], ['5'], ['6'],
       ['H','G','V','S','=','c','.','1','2','+','1','G','>','A',';',
        'S','P','L','I','C','E','_','P','O','S','=','1']] = .ok true ↔
      (((['+', '1'] : Str) ++ ['G']) ∈ conserved_splice_combinations
        ∧ ∃ v ∈ ([['1']] : List Str), spliceNormalize v ++ ['G'] = ['+', '1'] ++ ['G']) :=
  splice_concordance_canonical_iff
    [['1'], ['2'], ['3'], ['G'], ['A'], ['5'], ['6'],
     ['H','G','V','S','=','c','.','1','2','+','1','G','>','A',';',
      'S','P','L','I','C','E','_','P','O','S','=','1']]
    ['H','G','V','S','=','c','.','1','2','+','1','G','>','A',';',
     'S','P','L','I','C','E','_','P','O','S','=','1']
    ['c', '.', '1', '2', '+', '1', 'G', '>', 'A'] ['G'] [] ['+', '1'] 'G' [['1']]
    (by decide) (by decide) (by decide) (by decide) (by decide)

lemma digit_ne_g (c : Char) (h : isAsciiDigit c = true) : c ≠ 'g' := by
  intro he; subst he; revert h; decide

lemma digit_ne_gt (c : Char) (h : isAsciiDigit c = true) : c ≠ '>' := by
  intro he; subst he; revert h; decide

lemma nonzero_digit (c : Char) (h : isNonzeroDigit c = true) : isAsciiDigit c = true := by
  have hn : 49 ≤ c.toNat ∧ c.toNat ≤ 57 := by simpa [isNonzeroDigit] using h
  simp [isAsciiDigit]
  omega

lemma nonzero_ne_zero (c : Char) (h : isNonzeroDigit c = true) : (c == '0') = false := by
  have : c ≠ '0' := by intro he; subst he; revert h; decide
  simp [this]

lemma upper_not_digit (c : Char) (h : isAsciiUpper c = true) : isAsciiDigit c = false := by
  have hn : 65 ≤ c.toNat ∧ c.toNat ≤ 90 := by simpa [isAsciiUpper] using h
  simp [isAsciiDigit]
  omega

lemma upper_ne_underscore (c : Char) (h : isAsciiUpper c = true) : c ≠ '_' := by
  intro he; subst he; revert h; decide

lemma upper_ne_gt (c : Char) (h : isAsciiUpper c = true) : c ≠ '>' := by
  intro he; subst he; revert h; decide

/-- Attempted match of the chromosome regex `([0]+)([1-9][0-9]?)([.])` at the
head of the string: a nonempty greedy run of zeros, a nonzero digit, an
optional second digit (the optional digit is released when no dot follows
it), then a literal dot; the second group is returned. -/
def chrMatchAt (s : Str) : Option Str :=
  if s.takeWhile (fun x => x == '0') = [] then none
  else
    match s.drop (s.takeWhile (fun x => x == '0')).length with
    | [] => none
    | d :: rest =>
      if isNonzeroDigit d = true then
        match rest with
        | [] => none
        | e :: rest2 =>
          if isAsciiDigit e = true then
            match rest2 with
            | f :: _ => if f = '.' then some [d, e] else none
            | [] => none
          else if e = '.' then some [d] else none
      else none

/-- Leftmost search of the chromosome regex. -/
def chrSearch : Str → Option Str
  | [] => none
  | c :: t =>
    match chrMatchAt (c :: t) with
    | some g => some g
    | none => chrSearch t

/-- Attempted match of the coordinate regex `([g][.])([0-9]+[_]?[0-9]*)` at
the head of the string: literal `g.`, then a nonempty greedy digit run,
optionally extended by `_` and a further digit run. -/
def coordMatchAt : Str → Option Str
  | g :: d :: rest =>
    if g = 'g' ∧ d = '.' then
      if rest.takeWhile isAsciiDigit = [] then none
      else
        match rest.drop (rest.takeWhile isAsciiDigit).length with
        | u :: r2 =>
          if u = '_' then some (rest.takeWhile isAsciiDigit ++ u :: r2.takeWhile isAsciiDigit)
          else some (rest.takeWhile isAsciiDigit)
        | [] => some (rest.takeWhile isAsciiDigit)
    else none
  | _ => none

/-- Leftmost search of the coordinate regex. -/
def coordSearch : Str → Option Str
  | [] => none
  | c :: t =>
    match coordMatchAt (c :: t) with
    | some g => some g
    | none => coordSearch t

/-- Attempted match of the substitution regex `([A-Z])([>])([A-Z])` at the
head of the string. -/
def refMatchAt : Str → Option (Char × Char)
  | a :: g :: b :: _ =>
    if isAsciiUpper a = true ∧ g = '>' ∧ isAsciiUpper b = true then some (a, b) else none
  | _ => none

/-- Leftmost search of the substitution regex. -/
def refSearch : Str → Option (Char × Char)
  | [] => none
  | c :: t =>
    match refMatchAt (c :: t) with
    | some p => some p
    | none => refSearch t

namespace VariantRemapper

/-- `extraction/LeidenDatabase.py::VariantRemapper.get_chromosome_number`
(lines 340-357): second group of the chromosome regex, or the empty string
when there is no match. -/
def get_chromosome_number (mapping : Str) : Str := (chrSearch mapping).getD []

/-- `extraction/LeidenDatabase.py::VariantRemapper.get_coordinates`
(lines 359-376): second group of the coordinate regex, or the empty string
when there is no match. -/
def get_coordinates (mapping : Str) : Str := (coordSearch mapping).getD []

/-- `extraction/LeidenDatabase.py::VariantRemapper.get_ref` (lines 378-395):
the base before `>`, or the empty string when there is no substitution. -/
def get_ref (mapping : Str) : Str :=
  match refSearch mapping with
  | some p => [p.1]
  | none => []

/-- `extraction/LeidenDatabase.py::VariantRemapper.get_alt` (lines 397-414):
the base after `>`, or the empty string when there is no substitution. -/
def get_alt (mapping : Str) : Str :=
  match refSearch mapping with
  | some p => [p.2]
  | none => []

end VariantRemapper

lemma chrSearch_cons (c : Char) (t : Str) (h : (c == '0') = false) :
    chrSearch (c :: t) = chrSearch t := by
  have htw : ((c :: t) : Str).takeWhile (fun x => x == '0') = [] := by
    simp [List.takeWhile_cons, h]
  have hm : chrMatchAt (c :: t) = none := by
    rw [chrMatchAt, if_pos htw]
  simp [chrSearch, hm]

lemma coordMatchAt_not_g (c : Char) (t : Str) (h : c ≠ 'g') : coordMatchAt (c :: t) = none := by
  cases t with
  | nil => rfl
  | cons d r => simp [coordMatchAt, h]

lemma coordSearch_cons (c : Char) (t : Str) (h : c ≠ 'g') :
    coordSearch (c :: t) = coordSearch t := by
  simp [coordSearch, coordMatchAt_not_g c t h]

lemma coordSearch_append (l r : Str) (h : ∀ c ∈ l, c ≠ 'g') :
    coordSearch (l ++ r) = coordSearch r := by
  induction l with
  | nil => rfl
  | cons c t ih =>
    have hc : c ≠ 'g' := h c (by simp)
    have ht : ∀ x ∈ t, x ≠ 'g' := fun x hx => h x (by simp [hx])
    rw [List.cons_append, coordSearch_cons c _ hc, ih ht]

lemma refMatchAt_second_ne (x y : Char) (rest : Str) (h : y ≠ '>') :
    refMatchAt (x :: y :: rest) = none := by
  cases rest with
  | nil => rfl
  | cons z t => simp [refMatchAt, h]

lemma refSearch_concat (l : Str) (a b : Char) (r : Str)
    (ha : isAsciiUpper a = true) (hb : isAsciiUpper b = true)
    (hl : ∀ c ∈ l, c ≠ '>') (hagt : a ≠ '>') :
    refSearch (l ++ a :: '>' :: b :: r) = some (a, b) := by
  induction l with
  | nil =>
    simp [refSearch, refMatchAt, ha, hb]
  | cons c t ih =>
    have ht : ∀ x ∈ t, x ≠ '>' := fun x hx => hl x (by simp [hx])
    have hm : refMatchAt (c :: (t ++ a :: '>' :: b :: r)) = none := by
      cases t with
      | nil =>
        simp only [List.nil_append]
        exact refMatchAt_second_ne c a _ hagt
      | cons c2 t2 =>
        have hc2 : c2 ≠ '>' := hl c2 (by simp)
        simp only [List.cons_append]
        exact refMatchAt_second_ne c c2 _ hc2
    rw [List.cons_append]
    simp only [refSearch, hm]
    exact ih ht

lemma coordSearch_structured (pre posL : Str) (r0 : Char) (rr : Str)
    (hpre : ∀ c ∈ pre, c ≠ 'g')
    (hpos : posL ≠ []) (hposd : ∀ c ∈ posL, isAsciiDigit c = true)
    (hr0 : isAsciiDigit r0 = false) (hr0u : r0 ≠ '_') :
    coordSearch (pre ++ 'g' :: '.' :: (posL ++ r0 :: rr)) = some posL := by
  rw [coordSearch_append pre _ hpre]
  have htw : (posL ++ r0 :: rr).takeWhile isAsciiDigit = posL :=
    takeWhile_append_cons isAsciiDigit posL r0 rr hposd hr0
  have hm : coordMatchAt ('g' :: '.' :: (posL ++ r0 :: rr)) = some posL := by
    simp [coordMatchAt, htw, hpos, hr0u, List.drop_left]
  simp [coordSearch, hm]

lemma refSearch_sound : ∀ (s : Str) (a b : Char), refSearch s = some (a, b) →
    isAsciiUpper a = true ∧ isAsciiUpper b = true ∧ ∃ l r, s = l ++ a :: '>' :: b :: r := by
  intro s
  induction s with
  | nil => intro a b h; cases h
  | cons c t ih =>
    intro a b h
    simp only [refSearch] at h
    cases hm : refMatchAt (c :: t) with
    | some p =>
      rw [hm] at h
      simp only [Option.some.injEq] at h
      subst h
      cases t with
      | nil => simp [refMatchAt] at hm
      | cons g t2 =>
        cases t2 with
        | nil => simp [refMatchAt] at hm
        | cons b2 t3 =>
          by_cases hcond : isAsciiUpper c = true ∧ g = '>' ∧ isAsciiUpper b2 = true
          · simp only [refMatchAt, if_pos hcond, Option.some.injEq] at hm
            rw [Prod.mk.injEq] at hm
            obtain ⟨rfl, rfl⟩ := hm
            refine ⟨hcond.1, hcond.2.2, [], t3, ?_⟩
            simp [hcond.2.1]
          · simp only [refMatchAt, if_neg hcond] at hm
            exact Option.noConfusion hm
    | none =>
      rw [hm] at h
      obtain ⟨ha, hb, l, r, heq⟩ := ih a b h
      exact ⟨ha, hb, c :: l, r, by simp [heq]⟩

lemma zero_run_ne (c : Char) (h : (c == '0') = true) : c ≠ 'g' ∧ c ≠ '>' := by
  have hc : c = '0' := by simpa using h
  subst hc
  decide

lemma chrSearch_cons_of_match (c : Char) (t : Str) (g : Str)
    (h : chrMatchAt (c :: t) = some g) : chrSearch (c :: t) = some g := by
  simp [chrSearch, h]

lemma chrSearch_structured (zeros : Str) (c1 : Char) (crest t : Str)
    (hzne : zeros ≠ []) (hz : ∀ c ∈ zeros, (c == '0') = true)
    (hc1 : isNonzeroDigit c1 = true)
    (hcrest : crest = [] ∨ ∃ c2, isAsciiDigit c2 = true ∧ crest = [c2]) :
    chrSearch (['N', 'C', '_'] ++ zeros ++ (c1 :: crest) ++ '.' :: t)
      = some (c1 :: crest) := by
  have hc10 : (c1 == '0') = false := nonzero_ne_zero c1 hc1
  obtain ⟨z0, ztail, rfl⟩ : ∃ z0 ztail, zeros = z0 :: ztail := by
    cases zeros with
    | nil => exact absurd rfl hzne
    | cons z0 ztail => exact ⟨z0, ztail, rfl⟩
  have hshape : (['N', 'C', '_'] : Str) ++ (z0 :: ztail) ++ (c1 :: crest) ++ '.' :: t
      = 'N' :: 'C' :: '_' :: ((z0 :: ztail) ++ (c1 :: (crest ++ '.' :: t))) := by
    simp
  rw [hshape]
  rw [chrSearch_cons 'N' _ (by decide), chrSearch_cons 'C' _ (by decide),
      chrSearch_cons '_' _ (by decide)]
  have htw : ((z0 :: ztail) ++ (c1 :: (crest ++ '.' :: t))).takeWhile (fun x => x == '0')
      = z0 :: ztail :=
    takeWhile_append_cons _ (z0 :: ztail) c1 _ hz hc10
  have hm : chrMatchAt ((z0 :: ztail) ++ (c1 :: (crest ++ '.' :: t))) = some (c1 :: crest) := by
    rw [chrMatchAt, htw]
    rw [if_neg (by simp)]
    have hdrop : ((z0 :: ztail) ++ (c1 :: (crest ++ '.' :: t))).drop (z0 :: ztail).length
        = c1 :: (crest ++ '.' :: t) := List.drop_left _ _
    rw [hdrop]
    rcases hcrest with rfl | ⟨c2, hc2, rfl⟩
    · simp only [List.nil_append]
      simp [hc1, (by decide : isAsciiDigit '.' = false)]
    · simp only [List.cons_append, List.nil_append]
      simp [hc1, hc2]
  have hshape2 : ((z0 :: ztail) : Str) ++ (c1 :: (crest ++ '.' :: t))
      = z0 :: (ztail ++ (c1 :: (crest ++ '.' :: t))) := by
    simp
  rw [hshape2] at hm ⊢
  exact chrSearch_cons_of_match _ _ _ hm

/-- C5: on an SNP genomic string `NC_<zeros><chr>.<version>:g.<pos><ref>><alt>`
(a nonempty run of zeros, the chromosome one or two digits not starting
with 0 - this covers the claim's `NC_0000<chr>` template and the real
accessions with five zeros for one-digit chromosomes - version and position
nonempty digit runs, ref and alt single uppercase bases), the four extractors
return the chromosome number, the coordinate, the ref base and the alt base,
and together reconstruct the genomic string. -/
theorem genomic_snp_roundtrip (s : Str) (zeros : Str) (c1 : Char)
    (crest verL posL : Str) (ref alt : Char)
    (hzne : zeros ≠ []) (hz : ∀ c ∈ zeros, (c == '0') = true)
    (hc1 : isNonzeroDigit c1 = true)
    (hcrest : crest = [] ∨ ∃ c2, isAsciiDigit c2 = true ∧ crest = [c2])
    (hverd : ∀ c ∈ verL, isAsciiDigit c = true)
    (hposne : posL ≠ []) (hposd : ∀ c ∈ posL, isAsciiDigit c = true)
    (href : isAsciiUpper ref = true) (halt : isAsciiUpper alt = true)
    (hs : s = ['N', 'C', '_'] ++ zeros ++ (c1 :: crest) ++ '.' :: verL
        ++ ':' :: 'g' :: '.' :: posL ++ ref :: '>' :: alt :: []) :
    VariantRemapper.get_chromosome_number s = c1 :: crest
    ∧ VariantRemapper.get_coordinates s = posL
    ∧ VariantRemapper.get_ref s = [ref]
    ∧ VariantRemapper.get_alt s = [alt]
    ∧ s = ['N', 'C', '_'] ++ zeros ++ VariantRemapper.get_chromosome_number s
        ++ '.' :: verL ++ ':' :: 'g' :: '.' :: VariantRemapper.get_coordinates s
        ++ VariantRemapper.get_ref s ++ '>' :: VariantRemapper.get_alt s := by
  subst hs
  have hcrestd : ∀ c ∈ (c1 :: crest), isAsciiDigit c = true := by
    intro c hc
    rcases List.mem_cons.mp hc with rfl | hc
    · exact nonzero_digit _ hc1
    · rcases hcrest with rfl | ⟨c2, hc2, rfl⟩
      · simp at hc
      · have : c = c2 := by simpa using hc
        subst this
        exact hc2
  have hchr : chrSearch (['N', 'C', '_'] ++ zeros ++ (c1 :: crest) ++ '.' :: verL
      ++ ':' :: 'g' :: '.' :: posL ++ ref :: '>' :: alt :: []) = some (c1 :: crest) := by
    have hshape : (['N', 'C', '_'] : Str) ++ zeros ++ (c1 :: crest) ++ '.' :: verL
        ++ ':' :: 'g' :: '.' :: posL ++ ref :: '>' :: alt :: []
        = ['N', 'C', '_'] ++ zeros ++ (c1 :: crest)
          ++ '.' :: (verL ++ ':' :: 'g' :: '.' :: posL ++ ref :: '>' :: alt :: []) := by
      simp
    rw [hshape]
    exact chrSearch_structured zeros c1 crest _ hzne hz hc1 hcrest
  have hcoord : coordSearch (['N', 'C', '_'] ++ zeros ++ (c1 :: crest) ++ '.' :: verL
      ++ ':' :: 'g' :: '.' :: posL ++ ref :: '>' :: alt :: []) = some posL := by
    have hpre : ∀ c ∈ ((['N', 'C', '_'] : Str) ++ zeros ++ (c1 :: crest)
        ++ '.' :: (verL ++ [':'])), c ≠ 'g' := by
      intro c hc
      rcases List.mem_append.mp hc with hc' | hc'
      · rcases List.mem_append.mp hc' with hc2 | hc2
        · rcases List.mem_append.mp hc2 with hc3 | hc3
          · exact (by decide : ∀ x ∈ (['N', 'C', '_'] : Str), x ≠ 'g') c hc3
          · exact (zero_run_ne c (hz c hc3)).1
        · exact digit_ne_g c (hcrestd c hc2)
      · rcases List.mem_cons.mp hc' with rfl | hc2
        · decide
        · rcases List.mem_append.mp hc2 with hc3 | hc3
          · exact digit_ne_g c (hverd c hc3)
          · have : c = ':' := by simpa using hc3
            subst this
            decide
    have hshape : (['N', 'C', '_'] : Str) ++ zeros ++ (c1 :: crest) ++ '.' :: verL
        ++ ':' :: 'g' :: '.' :: posL ++ ref :: '>' :: alt :: []
        = (['N', 'C', '_'] ++ zeros ++ (c1 :: crest) ++ '.' :: (verL ++ [':']))
          ++ 'g' :: '.' :: (posL ++ ref :: '>' :: alt :: []) := by
      simp
    rw [hshape]
    exact coordSearch_structured _ posL ref ('>' :: alt :: []) hpre hposne hposd
      (upper_not_digit ref href) (upper_ne_underscore ref href)
  have hrefs : refSearch (['N', 'C', '_'] ++ zeros ++ (c1 :: crest) ++ '.' :: verL
      ++ ':' :: 'g' :: '.' :: posL ++ ref :: '>' :: alt :: []) = some (ref, alt) := by
    have hl : ∀ c ∈ ((['N', 'C', '_'] : Str) ++ zeros ++ (c1 :: crest)
        ++ '.' :: (verL ++ ':' :: 'g' :: '.' :: posL)), c ≠ '>' := by
      intro c hc
      rcases List.mem_append.mp hc with hc' | hc'
      · rcases List.mem_append.mp hc' with hc2 | hc2
        · rcases List.mem_append.mp hc2 with hc3 | hc3
          · exact (by decide : ∀ x ∈ (['N', 'C', '_'] : Str), x ≠ '>') c hc3
          · exact (zero_run_ne c (hz c hc3)).2
        · exact digit_ne_gt c (hcrestd c hc2)
      · rcases List.mem_cons.mp hc' with rfl | hc2
        · decide
        · rcases List.mem_append.mp hc2 with hc3 | hc3
          · exact digit_ne_gt c (hverd c hc3)
          · rcases List.mem_cons.mp hc3 with rfl | hc4
            · decide
            · rcases List.mem_cons.mp hc4 with rfl | hc5
              · decide
              · rcases List.mem_cons.mp hc5 with rfl | hc6
                · decide
                · exact digit_ne_gt c (hposd c hc6)
    have hshape : (['N', 'C', '_'] : Str) ++ zeros ++ (c1 :: crest) ++ '.' :: verL
        ++ ':' :: 'g' :: '.' :: posL ++ ref :: '>' :: alt :: []
        = (['N', 'C', '_'] ++ zeros ++ (c1 :: crest)
            ++ '.' :: (verL ++ ':' :: 'g' :: '.' :: posL)) ++ ref :: '>' :: alt :: [] := by
      simp
    rw [hshape]
    exact refSearch_concat _ ref alt [] href halt hl (upper_ne_gt ref href)
  have h1 : VariantRemapper.get_chromosome_number (['N', 'C', '_'] ++ zeros
      ++ (c1 :: crest) ++ '.' :: verL ++ ':' :: 'g' :: '.' :: posL ++ ref :: '>' :: alt :: [])
      = c1 :: crest := by
    unfold VariantRemapper.get_chromosome_number
    rw [hchr]
    rfl
  have h2 : VariantRemapper.get_coordinates (['N', 'C', '_'] ++ zeros
      ++ (c1 :: crest) ++ '.' :: verL ++ ':' :: 'g' :: '.' :: posL ++ ref :: '>' :: alt :: [])
      = posL := by
    unfold VariantRemapper.get_coordinates
    rw [hcoord]
    rfl
  have h3 : VariantRemapper.get_ref (['N', 'C', '_'] ++ zeros
      ++ (c1 :: crest) ++ '.' :: verL ++ ':' :: 'g' :: '.' :: posL ++ ref :: '>' :: alt :: [])
      = [ref] := by
    unfold VariantRemapper.get_ref
    rw [hrefs]
  have h4 : VariantRemapper.get_alt (['N', 'C', '_'] ++ zeros
      ++ (c1 :: crest) ++ '.' :: verL ++ ':' :: 'g' :: '.' :: posL ++ ref :: '>' :: alt :: [])
      = [alt] := by
    unfold VariantRemapper.get_alt
    rw [hrefs]
  refine ⟨h1, h2, h3, h4, ?_⟩
  rw [h1, h2, h3, h4]
  simp

/-- Witness for C5 on `NC_000001.10:g.229568620A>G`. -/
theorem genomic_snp_roundtrip_witness :
    VariantRemapper.get_chromosome_number
        ['N','C','_','0','0','0','0','0','1','.','1','0',':','g','.',
         '2','2','9','5','6','8','6','2','0','A','>','G'] = ['1']
    ∧ VariantRemapper.get_coordinates
        ['N','C','_','0','0','0','0','0','1','.','1','0',':','g','.',
         '2','2','9','5','6','8','6','2','0','A','>','G']
        = ['2','2','9','5','6','8','6','2','0']
    ∧ VariantRemapper.get_ref
        ['N','C','_','0','0','0','0','0','1','.','1','0',':','g','.',
         '2','2','9','5','6','8','6','2','0','A','>','G'] = ['A']
    ∧ VariantRemapper.get_alt
        ['N','C','_','0','0','0','0','0','1','.','1','0',':','g','.',
         '2','2','9','5','6','8','6','2','0','A','>','G'] = ['G'] := by
  have h := genomic_snp_roundtrip
    ['N','C','_','0','0','0','0','0','1','.','1','0',':','g','.',
     '2','2','9','5','6','8','6','2','0','A','>','G']
    ['0','0','0','0','0'] '1' [] ['1','0'] ['2','2','9','5','6','8','6','2','0'] 'A' 'G'
    (by decide) (by decide) (by decide) (Or.inl rfl) (by decide) (by decide) (by decide)
    (by decide) (by decide) (by decide)
  exact ⟨h.1, h.2.1, h.2.2.1, h.2.2.2.1⟩

/-- C6: on every mapping string with no substring `<uppercase>><uppercase>`
(in particular insertion, deletion and duplication variants), `get_ref` and
`get_alt` both return the empty string instead of failing. -/
theorem get_ref_alt_non_snp_empty (s : Str)
    (h : ∀ a b : Char, isAsciiUpper a = true → isAsciiUpper b = true →
      ∀ l r : Str, s ≠ l ++ a :: '>' :: b :: r) :
    VariantRemapper.get_ref s = [] ∧ VariantRemapper.get_alt s = [] := by
  cases hm : refSearch s with
  | none => simp [VariantRemapper.get_ref, VariantRemapper.get_alt, hm]
  | some p =>
    obtain ⟨a, b⟩ := p
    obtain ⟨ha, hb, l, r, heq⟩ := refSearch_sound s a b hm
    exact absurd heq (h a b ha hb l r)

/-- Witness for C6 on the deletion mapping text `123_124del` (no `>` at all,
hence no substitution substring). -/
theorem get_ref_alt_non_snp_empty_witness :
    VariantRemapper.get_ref ['1', '2', '3', '_', '1', '2', '4', 'd', 'e', 'l'] = []
    ∧ VariantRemapper.get_alt ['1', '2', '3', '_', '1', '2', '4', 'd', 'e', 'l'] = [] := by
  apply get_ref_alt_non_snp_empty
  intro a b ha hb l r heq
  have hmem : '>' ∈ (['1', '2', '3', '_', '1', '2', '4', 'd', 'e', 'l'] : Str) := by
    rw [heq]
    simp
  revert hmem
  decide

/-- Python whitespace characters stripped by `str.strip()`. -/
def pySpace (c : Char) : Bool :=
  c == ' ' || c == '\t' || c == '\n' || c == '\r' || c == '\x0b' || c == '\x0c'

/-- Python `str.strip()`. -/
def pyStrip (s : Str) : Str := ((s.dropWhile pySpace).reverse.dropWhile pySpace).reverse

/-- Python `str.lower` on ASCII text. -/
def lowerStr (s : Str) : Str := s.map Char.toLower

def find_string_index_from : List Str → Str → Nat → Int
  | [], _, _ => -1
  | x :: t, ss, i =>
    if pyIn ss (pyStrip (lowerStr x)) = true then Int.ofNat i
    else find_string_index_from t ss (i + 1)

/-- `extraction/LeidenDatabase.py::Utilities.find_string_index`
(lines 117-144): index of the first element that contains the search string
after both are lowercased and stripped, or `-1` when none does. -/
def find_string_index (string_list : List Str) (search_string : Str) : Int :=
  find_string_index_from string_list (pyStrip (lowerStr search_string)) 0

/-- Python `list[i]` with an `Int` index (negative indices count from the
end, as in `data[0][-1]` when the column lookup returned `-1`). -/
def pyGet (l : List Str) (i : Int) : Except Err Str :=
  let j := if i < 0 then i + l.length else i
  if 0 ≤ j ∧ j < (l.length : Int) then .ok (l.getD j.toNat []) else .error .IndexErr

/-- Per-variant result lists of a batch remapping job
(`remapping_results` named tuple of the source). -/
structure remapping_results where
  chromosome_number : List Str
  coordinate : List Str
  ref : List Str
  alt : List Str
deriving DecidableEq, Repr

/-- Table-level core of
`extraction/LeidenDatabase.py::VariantRemapper.get_batch_results`
(lines 307-338): locate the `Chromosomal Variant` column in the header row,
take that cell of every data row, and run the four extractors over the
resulting chromosomal-variant strings. -/
def get_batch_results_data (data : List (List Str)) : Except Err remapping_results :=
  match data with
  | [] => .error .IndexErr
  | header :: rows =>
    let variant_column := find_string_index header
      ['C', 'h', 'r', 'o', 'm', 'o', 's', 'o', 'm', 'a', 'l', ' ',
       'V', 'a', 'r', 'i', 'a', 'n', 't']
    match rows.mapM (fun x => pyGet x variant_column) with
    | .error e => .error e
    | .ok chromosomal_variants =>
      .ok ⟨chromosomal_variants.map VariantRemapper.get_chromosome_number,
           chromosomal_variants.map VariantRemapper.get_coordinates,
           chromosomal_variants.map VariantRemapper.get_ref,
           chromosomal_variants.map VariantRemapper.get_alt⟩

/-- Python `str.rstrip('\n')`. -/
def pyRstripNl (s : Str) : Str := (s.reverse.dropWhile (fun c => c == '\n')).reverse

/-- `VariantRemapper.get_batch_results` on the base64-decoded result string
(the network fetch and transport decoding are outside the model): strip
trailing newlines, split into rows on newline and into columns on tab, then
parse the table. -/
def get_batch_results (result : Str) : Except Err remapping_results :=
  get_batch_results_data
    (((pyRstripNl result).splitOn '\n').map (fun row => row.splitOn '\t'))

lemma pyGet_ofNat (r : List Str) (k : Nat) (hr : k < r.length) :
    pyGet r (Int.ofNat k) = .ok (r.getD k []) := by
  simp only [pyGet, Int.ofNat_eq_coe]
  have h1 : ¬((k : Int) < 0) := by omega
  rw [if_neg h1]
  rw [if_pos ⟨by omega, by exact_mod_cast hr⟩]
  simp

lemma mapM_pyGet (k : Nat) : ∀ rows : List (List Str), (∀ row ∈ rows, k < row.length) →
    rows.mapM (fun x => pyGet x (Int.ofNat k)) = .ok (rows.map (fun r => r.getD k [])) := by
  intro rows
  induction rows with
  | nil => intro _; rfl
  | cons r rs ih =>
    intro h
    have hr : k < r.length := h r (by simp)
    have hrs : ∀ row ∈ rs, k < row.length := fun row hrow => h row (by simp [hrow])
    rw [List.mapM_cons, pyGet_ofNat r k hr, ih hrs]
    rfl

/-- C4: when the fetched result table is a header row in which the
`Chromosomal Variant` column is found at index `k`, followed by one data row
per submitted variant (each wide enough), `get_batch_results` returns four
result lists whose length equals the number of data rows and whose `i`-th
entries are the four extractor outputs on the `i`-th row's variant cell, in
row (= submission) order. -/
theorem get_batch_results_table_spec (header : List Str) (rows : List (List Str)) (k : Nat)
    (hfind : find_string_index header
        ['C', 'h', 'r', 'o', 'm', 'o', 's', 'o', 'm', 'a', 'l', ' ',
         'V', 'a', 'r', 'i', 'a', 'n', 't'] = Int.ofNat k)
    (hlen : ∀ row ∈ rows, k < row.length) :
    get_batch_results_data (header :: rows)
      = .ok ⟨rows.map (fun r => VariantRemapper.get_chromosome_number (r.getD k [])),
             rows.map (fun r => VariantRemapper.get_coordinates (r.getD k [])),
             rows.map (fun r => VariantRemapper.get_ref (r.getD k [])),
             rows.map (fun r => VariantRemapper.get_alt (r.getD k []))⟩
    ∧ (rows.map (fun r => VariantRemapper.get_chromosome_number (r.getD k []))).length
        = rows.length
    ∧ (rows.map (fun r => VariantRemapper.get_coordinates (r.getD k []))).length = rows.length
    ∧ (rows.map (fun r => VariantRemapper.get_ref (r.getD k []))).length = rows.length
    ∧ (rows.map (fun r => VariantRemapper.get_alt (r.getD k []))).length = rows.length := by
  refine ⟨?_, by simp, by simp, by simp, by simp⟩
  simp only [get_batch_results_data, hfind]
  rw [mapM_pyGet k rows hlen]
  simp [List.map_map, Function.comp]

/-- Witness for C4 on a one-variant table whose single data row holds
`NC_000001.10:g.229568620A>G`. -/
theorem get_batch_results_table_spec_witness :
    get_batch_results_data
      [[['C','h','r','o','m','o','s','o','m','a','l',' ','V','a','r','i','a','n','t']],
       [['N','C','_','0','0','0','0','0','1','.','1','0',':','g','.',
         '2','2','9','5','6','8','6','2','0','A','>','G']]]
      = .ok ⟨[['1']], [['2','2','9','5','6','8','6','2','0']], [['A']], [['G']]⟩ := by
  have h := (get_batch_results_table_spec
    [['C','h','r','o','m','o','s','o','m','a','l',' ','V','a','r','i','a','n','t']]
    [[['N','C','_','0','0','0','0','0','1','.','1','0',':','g','.',
       '2','2','9','5','6','8','6','2','0','A','>','G']]]
    0 (by decide) (by decide)).1
  rw [h]
  decide
